import Mathlib

/-!
Shallow embedding of the check-cx health-check engine core:
the transient-failure classifier, the single-provider check runner with
retry (`checkWithRetry`), the bounded-concurrency scheduler
(`runProviderChecks`), the challenge generator / response validator
(`generateChallenge`, `validateResponse`), the statistics aggregator
(`computeStatistics`), and the error-message extraction helpers
(`getErrorMessage`, `extractErrorFromResponseBody`).

Machine numbers are modelled as `Nat`/`Int`/`ℚ`; nullable values as
`Option`; thrown JavaScript errors as an explicit `JsError` datatype;
JavaScript `Promise` results as plain values (the per-provider check is
a function from the attempt index to its outcome).
-/

/-! ### Generic string helpers (used to model JS regex / string builtins) -/

/-- Substring occurrence test on character lists: `hasSub hay needle` is
true iff `needle` occurs contiguously inside `hay`. Models JS
`RegExp.test` for a fixed literal pattern and `String.includes`. -/
def hasSub (hay needle : List Char) : Bool :=
  match hay with
  | [] => needle.isEmpty
  | _ :: t => needle.isPrefixOf hay || hasSub t needle

/-- Lower-cased character list of a string; models the effect of a JS
case-insensitive (`/i`) match for ASCII patterns. -/
def lowerChars (s : String) : List Char :=
  s.data.map Char.toLower

/-! ### Core data model (`lib/types`): provider configuration and results -/

/-- Health status of one check, as constrained by the `check_history`
migrations: `operational | degraded | failed | validation_failed | error`. -/
inductive HealthStatus where
  | operational
  | degraded
  | failed
  | validation_failed
  | error
deriving DecidableEq, Repr

/-- Provider configuration (identity fields consumed by the core). -/
structure ProviderConfig where
  id : String
  name : String
  type : String
  endpoint : String
  model : String
deriving DecidableEq, Repr

/-- Normalized result of one provider check. -/
structure CheckResult where
  id : String
  name : String
  type : String
  endpoint : String
  model : String
  status : HealthStatus
  latencyMs : Option Int
  pingLatencyMs : Option Int
  checkedAt : String
  message : String
deriving DecidableEq, Repr

/-! ### Transient-failure classifier (`shouldRetryRequestAborted`) -/

/-- Test of the regex `/request was aborted\.?/i` on a string: the
optional trailing period adds nothing to a containment test, so this is
case-insensitive containment of the fixed phrase. -/
def requestAbortedTest (s : String) : Bool :=
  hasSub (lowerChars s) ("request was aborted".data)

/-- Translation of `shouldRetryRequestAborted` from the provider entry
module: `undefined` or `""` (both falsy) yield false, otherwise the
regex test decides. -/
def shouldRetryRequestAborted (message : Option String) : Bool :=
  match message with
  | none => false
  | some s => if s = "" then false else requestAbortedTest s

/-! ### Challenge generator and response validator (`lib/providers/challenge.ts`) -/

/-- Translation of the `Challenge` interface. -/
structure Challenge where
  prompt : String
  expectedAnswer : String
deriving DecidableEq, Repr

/-- Translation of `buildPromptWithExamples`. -/
def buildPromptWithExamples (question : String) : String :=
  "Calculate and respond with ONLY the number, nothing else.\n\nQ: 3 + 5 = ?\nA: 8\n\nQ: 12 - 7 = ?\nA: 5\n\nQ: " ++ question ++ "\nA:"

/-- Translation of `generateChallenge`. Randomness is made explicit:
`d1`/`d2` are the two draws `Math.floor(Math.random() * 50)` (each in
`[0, 50)`) and `isAddition` is the outcome of `Math.random() > 0.5`. -/
def generateChallenge (d1 d2 : Fin 50) (isAddition : Bool) : Challenge :=
  let a := d1.val + 1
  let b := d2.val + 1
  if isAddition then
    { prompt := buildPromptWithExamples (toString a ++ " + " ++ toString b ++ " = ?"),
      expectedAnswer := toString (a + b) }
  else
    let larger := max a b
    let smaller := min a b
    { prompt := buildPromptWithExamples (toString larger ++ " - " ++ toString smaller ++ " = ?"),
      expectedAnswer := toString (larger - smaller) }

/-- Translation of the `ValidationResult` interface; `extractedNumbers`
is `none` where the source stores `null`. -/
structure ValidationResult where
  valid : Bool
  extractedNumbers : Option (List String)
deriving DecidableEq, Repr

/-- One step of the scan `response.match` with the global regex
`-?\d+`: at the current
position, try a maximal `-?[0-9]+` match; on success emit it and resume
after it, otherwise advance one character. `fuel` only bounds the
recursion and is always sufficient when it exceeds the list length. -/
def scanNumbersAux : Nat → List Char → List String
  | 0, _ => []
  | Nat.succ fuel, cs =>
    match cs with
    | [] => []
    | c :: rest =>
      if c = '-' then
        match rest with
        | [] => []
        | d :: _ =>
          if d.isDigit then
            String.mk ('-' :: rest.takeWhile Char.isDigit) ::
              scanNumbersAux fuel (rest.dropWhile Char.isDigit)
          else
            scanNumbersAux fuel rest
      else if c.isDigit then
        String.mk ((c :: rest).takeWhile Char.isDigit) ::
          scanNumbersAux fuel ((c :: rest).dropWhile Char.isDigit)
      else
        scanNumbersAux fuel rest

/-- All matches of the global regex `-?\d+` over a string, left to right. -/
def extractNumbers (response : String) : List String :=
  scanNumbersAux (response.data.length + 1) response.data

/-- Translation of `validateResponse`: falsy (empty) arguments short
circuit; a scan with no match is the `null` return of `String.match`,
modelled by the empty list. -/
def validateResponse (response expectedAnswer : String) : ValidationResult :=
  if response = "" ∨ expectedAnswer = "" then
    { valid := false, extractedNumbers := none }
  else
    let numbers := extractNumbers response
    match numbers with
    | [] => { valid := false, extractedNumbers := none }
    | _ => { valid := numbers.contains expectedAnswer, extractedNumbers := some numbers }

/-! ### JSON value model (for `JSON.parse`, a host builtin used by
`extractErrorFromResponseBody` in `lib/utils/error-handler.ts`) -/

/-- Parsed JSON value. Numbers keep their source text: no claim depends
on numeric JSON semantics, only on truthiness and field access. -/
inductive Json where
  | nullVal
  | boolVal (b : Bool)
  | num (raw : String)
  | str (s : String)
  | arr (items : List Json)
  | obj (fields : List (String × Json))

/-- JSON whitespace accepted between tokens. -/
def isJsonWs (c : Char) : Bool :=
  c = ' ' || c = '\t' || c = '\n' || c = '\r'

/-- Value of one hexadecimal digit, if the character is one. -/
def hexDigitVal (c : Char) : Option Nat :=
  if c.isDigit then some (c.toNat - 48)
  else if 'a' ≤ c ∧ c ≤ 'f' then some (c.toNat - 87)
  else if 'A' ≤ c ∧ c ≤ 'F' then some (c.toNat - 55)
  else none

/-- Decode the body of a JSON string literal (after the opening quote),
returning the decoded characters and the input after the closing quote. -/
def parseStringChars : List Char → List Char → Option (List Char × List Char)
  | _, [] => none
  | acc, c :: rest =>
    if c = '"' then some (acc.reverse, rest)
    else if c = '\\' then
      match rest with
      | [] => none
      | e :: rest2 =>
        if e = '"' then parseStringChars ('"' :: acc) rest2
        else if e = '\\' then parseStringChars ('\\' :: acc) rest2
        else if e = '/' then parseStringChars ('/' :: acc) rest2
        else if e = 'n' then parseStringChars ('\n' :: acc) rest2
        else if e = 't' then parseStringChars ('\t' :: acc) rest2
        else if e = 'r' then parseStringChars ('\r' :: acc) rest2
        else if e = 'b' then parseStringChars (Char.ofNat 8 :: acc) rest2
        else if e = 'f' then parseStringChars (Char.ofNat 12 :: acc) rest2
        else if e = 'u' then
          match rest2 with
          | h1 :: h2 :: h3 :: h4 :: rest3 =>
            match hexDigitVal h1, hexDigitVal h2, hexDigitVal h3, hexDigitVal h4 with
            | some v1, some v2, some v3, some v4 =>
              parseStringChars (Char.ofNat (((v1 * 16 + v2) * 16 + v3) * 16 + v4) :: acc) rest3
            | _, _, _, _ => none
          | _ => none
        else none
    else parseStringChars (c :: acc) rest
termination_by _ cs => cs.length

/-- Scan a JSON number token (leniently), returning its text and the rest. -/
def takeNumber (cs : List Char) : List Char × List Char :=
  let (sign, cs1) :=
    match cs with
    | '-' :: t => (['-'], t)
    | _ => (([] : List Char), cs)
  let intPart := cs1.takeWhile Char.isDigit
  let cs2 := cs1.dropWhile Char.isDigit
  let (frac, cs3) :=
    match cs2 with
    | '.' :: t => ('.' :: t.takeWhile Char.isDigit, t.dropWhile Char.isDigit)
    | _ => (([] : List Char), cs2)
  match cs3 with
  | e :: t =>
    if e = 'e' ∨ e = 'E' then
      match t with
      | s :: t2 =>
        if s = '+' ∨ s = '-' then
          (sign ++ intPart ++ frac ++ [e, s] ++ t2.takeWhile Char.isDigit, t2.dropWhile Char.isDigit)
        else
          (sign ++ intPart ++ frac ++ [e] ++ t.takeWhile Char.isDigit, t.dropWhile Char.isDigit)
      | [] => (sign ++ intPart ++ frac ++ [e], t)
    else (sign ++ intPart ++ frac, cs3)
  | [] => (sign ++ intPart ++ frac, cs3)

mutual

/-- Fuel-bounded JSON value parser; the fuel provided by `jsonParse` is
always sufficient, since every two recursive steps consume input. -/
def parseJsonVal : Nat → List Char → Option (Json × List Char)
  | 0, _ => none
  | Nat.succ fuel, cs =>
    let cs1 := cs.dropWhile isJsonWs
    match cs1 with
    | [] => none
    | c :: rest =>
      if c = '"' then
        match parseStringChars [] rest with
        | some (body, rest2) => some (Json.str (String.mk body), rest2)
        | none => none
      else if c = 't' then
        if ("rue".data).isPrefixOf rest then some (Json.boolVal true, rest.drop 3) else none
      else if c = 'f' then
        if ("alse".data).isPrefixOf rest then some (Json.boolVal false, rest.drop 4) else none
      else if c = 'n' then
        if ("ull".data).isPrefixOf rest then some (Json.nullVal, rest.drop 3) else none
      else if c = '\x7b' then
        parseJsonFields fuel rest []
      else if c = '[' then
        parseJsonElems fuel rest []
      else if c = '-' ∨ c.isDigit then
        let p := takeNumber cs1
        if (p.1.any Char.isDigit) then some (Json.num (String.mk p.1), p.2) else none
      else none

/-- Fuel-bounded parser for array elements, after the opening bracket. -/
def parseJsonElems : Nat → List Char → List Json → Option (Json × List Char)
  | 0, _, _ => none
  | Nat.succ fuel, cs, acc =>
    let cs1 := cs.dropWhile isJsonWs
    match cs1 with
    | ']' :: rest =>
      if acc.isEmpty then some (Json.arr [], rest) else none
    | _ =>
      match parseJsonVal fuel cs1 with
      | some (v, rest) =>
        let rest1 := rest.dropWhile isJsonWs
        match rest1 with
        | ',' :: more => parseJsonElems fuel more (v :: acc)
        | ']' :: more => some (Json.arr (v :: acc).reverse, more)
        | _ => none
      | none => none

/-- Fuel-bounded parser for object fields, after the opening brace. -/
def parseJsonFields : Nat → List Char → List (String × Json) → Option (Json × List Char)
  | 0, _, _ => none
  | Nat.succ fuel, cs, acc =>
    let cs1 := cs.dropWhile isJsonWs
    match cs1 with
    | '\x7d' :: rest =>
      if acc.isEmpty then some (Json.obj [], rest) else none
    | '"' :: rest =>
      match parseStringChars [] rest with
      | some (key, rest2) =>
        match rest2.dropWhile isJsonWs with
        | ':' :: rest3 =>
          match parseJsonVal fuel rest3 with
          | some (v, rest4) =>
            let rest5 := rest4.dropWhile isJsonWs
            match rest5 with
            | ',' :: more => parseJsonFields fuel more ((String.mk key, v) :: acc)
            | '\x7d' :: more => some (Json.obj ((String.mk key, v) :: acc).reverse, more)
            | _ => none
          | none => none
        | _ => none
      | none => none
    | _ => none

end

/-- Model of the `JSON.parse` builtin: parse the whole string, rejecting
trailing garbage. -/
def jsonParse (s : String) : Option Json :=
  match parseJsonVal (2 * s.length + 2) s.data with
  | some (v, rest) => if (rest.dropWhile isJsonWs).isEmpty then some v else none
  | none => none

/-- JS truthiness of a parsed JSON value (`null`, `false`, `""` and
zero numbers are falsy; arrays and objects are truthy). -/
def jsTruthy : Json → Bool
  | Json.nullVal => false
  | Json.boolVal b => b
  | Json.str s => decide (s ≠ "")
  | Json.num raw => (raw.data.takeWhile (fun c => c ≠ 'e' ∧ c ≠ 'E')).any (fun c => c.isDigit && c ≠ '0')
  | Json.arr _ => true
  | Json.obj _ => true

mutual

/-- JS string coercion of a parsed JSON value, as used when the value is
interpolated into a template string. -/
def jsDisplay : Json → String
  | Json.nullVal => "null"
  | Json.boolVal true => "true"
  | Json.boolVal false => "false"
  | Json.num raw => raw
  | Json.str s => s
  | Json.arr items => String.intercalate "," (jsDisplayList items)
  | Json.obj _ => "[object Object]"

/-- Pointwise JS string coercion of a list of JSON values. -/
def jsDisplayList : List Json → List String
  | [] => []
  | j :: t => jsDisplay j :: jsDisplayList t

end

/-- Property access `data[key]` on a parsed JSON value: only objects have
fields, and for duplicate keys `JSON.parse` keeps the last one. -/
def jsGetField (j : Json) (key : String) : Option Json :=
  match j with
  | Json.obj fields => (fields.reverse.find? (fun p => p.1 == key)).map (fun p => p.2)
  | _ => none

/-! ### Error-handler utilities (`lib/utils/error-handler.ts`) -/

/-- Thrown JavaScript value, as far as `getErrorMessage` can observe it:
an `Error` object with its `message`, the optional `statusCode` and
`responseBody` of an AI-SDK API call error, and the remaining own
properties (`extra`, modelled as string-valued; they are never read by
`getErrorMessage`); or a thrown string; or anything else. -/
inductive JsError where
  | errObj (message : String) (statusCode : Option Int) (responseBody : Option String) (extra : List (String × String))
  | str (s : String)
  | other
deriving DecidableEq, Repr

/-- Test of the sensitive-field regex
`api[_-]?key|secret|token|password|authorization|bearer|credential` (case
insensitive) on a property name. -/
def sensitiveKeyTest (key : String) : Bool :=
  let lk := lowerChars key
  hasSub lk ("api_key".data) || hasSub lk ("api-key".data) || hasSub lk ("apikey".data) ||
    hasSub lk ("secret".data) || hasSub lk ("token".data) || hasSub lk ("password".data) ||
    hasSub lk ("authorization".data) || hasSub lk ("bearer".data) || hasSub lk ("credential".data)

/-- Translation of `sanitizeValue` for string values: short strings pass
through, longer ones keep only their first and last 4 characters. -/
def sanitizeValue (value : String) : String :=
  if value.length ≤ 8 then value
  else String.mk (value.data.take 4) ++ "***" ++ String.mk (value.data.drop (value.data.length - 4))

/-- Translation of `extractErrorFromResponseBody` on the SSE branch: the
first match of the regex `data:` + whitespace + braced group on the
response body, returning the captured group. The dot in the regex does
not cross line terminators, and the group capture is greedy up to the
last closing brace of the line. -/
def sseTryAt (cs : List Char) : Option (List Char) :=
  let cs1 := cs.dropWhile (fun c =>
    c = ' ' || c = '\t' || c = '\n' || c = '\r' || c = '\x0b' || c = '\x0c')
  match cs1 with
  | c :: rest =>
    if c = '\x7b' then
      let line := rest.takeWhile (fun ch => ch ≠ '\n' ∧ ch ≠ '\r')
      match (line.reverse.findIdx? (fun ch => ch = '\x7d')) with
      | some k => some ('\x7b' :: line.take (line.length - k))
      | none => none
    else none
  | [] => none

/-- Left-to-right scan for the first position where the SSE pattern
matches, as the JS regex engine does. -/
def sseScan : List Char → Option (List Char)
  | [] => none
  | c :: rest =>
    match (if ("data:".data).isPrefixOf (c :: rest) then sseTryAt ((c :: rest).drop 5) else none) with
    | some cap => some cap
    | none => sseScan rest

/-- Truthy `data.message` field of a parsed JSON value, coerced to a string. -/
def jsonMessageField (data : Json) : Option String :=
  match jsGetField data ("message") with
  | some v => if jsTruthy v then some (jsDisplay v) else none
  | none => none

/-- Truthy `data.error?.message` field of a parsed JSON value. -/
def jsonErrorMessageField (data : Json) : Option String :=
  match jsGetField data ("error") with
  | some e =>
    match jsGetField e ("message") with
    | some v => if jsTruthy v then some (jsDisplay v) else none
    | none => none
  | none => none

/-- Translation of `extractErrorFromResponseBody`: try the SSE-framed
JSON payload first, then the body as plain JSON, and fall back to the
first 100 characters of a non-JSON body. -/
def extractErrorFromResponseBody (responseBody : String) : Option String :=
  let direct : Option String :=
    match jsonParse responseBody with
    | some data =>
      match jsonMessageField data with
      | some m => some m
      | none => jsonErrorMessageField data
    | none =>
      if responseBody.length > 0 then some (String.mk (responseBody.data.take 100)) else none
  match sseScan responseBody.data with
  | some cap =>
    match jsonParse (String.mk cap) with
    | some data =>
      match jsonMessageField data with
      | some m => some m
      | none =>
        match jsonErrorMessageField data with
        | some m => some m
        | none => direct
    | none => direct
  | none => direct

/-- Translation of `getErrorMessage`: for `Error` objects, prefer a
message extracted from a truthy `responseBody`, prefixing a truthy
(nonzero) `statusCode`; otherwise the error's own `message`; thrown
strings pass through; anything else becomes the fixed unknown-error
text. The `extra` properties are never consulted. -/
def getErrorMessage : JsError → String
  | JsError.errObj message statusCode responseBody _ =>
    let fromBody : Option String :=
      match responseBody with
      | some rb => if rb = "" then none else extractErrorFromResponseBody rb
      | none => none
    match fromBody with
    | some extracted =>
      match statusCode with
      | some code => if code = 0 then extracted else "[" ++ toString code ++ "] " ++ extracted
      | none => extracted
    | none =>
      match statusCode with
      | some code => if code = 0 then message else "[" ++ toString code ++ "] " ++ message
      | none => message
  | JsError.str s => s
  | JsError.other => "未知错误"

/-! ### Single-provider check runner (`checkWithRetry` in the provider
entry module) -/

/-- Retry cap: at most 3 attempts, one initial plus 2 retries. -/
def MAX_REQUEST_ABORT_RETRIES : Nat := 2

/-- Outcome of one invocation of the externally supplied provider check
(`checkWithAiSdk`): a resolved `CheckResult` or a thrown error. The
whole asynchronous check is modelled as a function from the attempt
index to its outcome. -/
inductive AttemptOutcome where
  | ok (result : CheckResult)
  | thrown (error : JsError)
deriving DecidableEq, Repr

/-- Terminal error result synthesized on the non-retryable throw path of
`checkWithRetry`; `now` models `new Date().toISOString()`. -/
def mkErrorResult (config : ProviderConfig) (now message : String) : CheckResult :=
  { id := config.id, name := config.name, type := config.type,
    endpoint := config.endpoint, model := config.model,
    status := HealthStatus.error, latencyMs := none, pingLatencyMs := none,
    checkedAt := now, message := message }

/-- Translation of the `for (attempt = 0; attempt <= MAX; attempt++)`
loop body of `checkWithRetry`. Returns the attempt index that produced
the returned result, or `none` when the loop exits without returning
(the defensive post-loop throw). `fuel` bounds the recursion; the
caller passes enough for all loop iterations plus the final condition
check, so the fuel-exhaustion branch is unreachable. -/
def retryLoop (config : ProviderConfig) (now : String) (attemptOutcome : Nat → AttemptOutcome) :
    Nat → Nat → Option (Nat × CheckResult)
  | _, 0 => none
  | attempt, Nat.succ fuel =>
    if attempt ≤ MAX_REQUEST_ABORT_RETRIES then
      match attemptOutcome attempt with
      | AttemptOutcome.ok result =>
        if result.status = HealthStatus.failed ∧
            shouldRetryRequestAborted (some result.message) = true ∧
            attempt < MAX_REQUEST_ABORT_RETRIES then
          retryLoop config now attemptOutcome (attempt + 1) fuel
        else some (attempt, result)
      | AttemptOutcome.thrown e =>
        let message := getErrorMessage e
        if shouldRetryRequestAborted (some message) = true ∧
            attempt < MAX_REQUEST_ABORT_RETRIES then
          retryLoop config now attemptOutcome (attempt + 1) fuel
        else some (attempt, mkErrorResult config now message)
    else none

/-- Translation of `checkWithRetry`: run the retry loop from attempt 0;
a loop exit without a return is the thrown `Unexpected retry loop exit`,
surfaced here as the `Except.error` case. -/
def checkWithRetry (config : ProviderConfig) (now : String) (attemptOutcome : Nat → AttemptOutcome) :
    Except String CheckResult :=
  match retryLoop config now attemptOutcome 0 (MAX_REQUEST_ABORT_RETRIES + 2) with
  | some (_, result) => Except.ok result
  | none => Except.error ("Unexpected retry loop exit")

/-- Number of invocations of the provider check performed by
`checkWithRetry` (the returning attempt index plus one). -/
def attemptsUsed (config : ProviderConfig) (now : String) (attemptOutcome : Nat → AttemptOutcome) :
    Option Nat :=
  (retryLoop config now attemptOutcome 0 (MAX_REQUEST_ABORT_RETRIES + 2)).map (fun p => p.1 + 1)

/-! ### Bounded-concurrency scheduler (`runProviderChecks`) -/

/-- Lexicographic comparison of two sequences of naturals. -/
def lexNat : List Nat → List Nat → Ordering
  | [], [] => Ordering.eq
  | [], _ :: _ => Ordering.lt
  | _ :: _, [] => Ordering.gt
  | x :: xs, y :: ys =>
    if x < y then Ordering.lt
    else if y < x then Ordering.gt
    else lexNat xs ys

/-- Primary collation key: character identity ignoring case. -/
def primaryKey (s : String) : List Nat :=
  (lowerChars s).map Char.toNat

/-- Secondary collation key: case of each character, lowercase first. -/
def secondaryKey (s : String) : List Nat :=
  s.data.map (fun c => if c.isUpper then 1 else 0)

/-- Modelled from the spec: `name.localeCompare(name)` — the
`String.prototype.localeCompare` host builtin, described as locale-aware
ascending string comparison. Modelled at the default collation's first
two strengths for ASCII: letters compare case-insensitively first, and
equal letters compare lowercase before uppercase. Returns a negative,
zero or positive number as the first string sorts before, equal to or
after the second. -/
def localeCompare (a b : String) : Int :=
  match (lexNat (primaryKey a) (primaryKey b)).then (lexNat (secondaryKey a) (secondaryKey b)) with
  | Ordering.lt => -1
  | Ordering.eq => 0
  | Ordering.gt => 1

/-- Comparator actually passed to `results.sort`. -/
def nameLe (a b : CheckResult) : Bool :=
  decide (localeCompare a.name b.name ≤ 0)

/-- Translation of `runProviderChecks`. The per-provider check is the
externally supplied `checkWithRetry ∘ checkWithAiSdk` pipeline,
abstracted as `check`; `pLimit(getCheckConcurrency())` bounds how many
checks are in flight but `Promise.all` keeps results in submission
order, so the value of the batch is the order-preserving map of `check`
over the configurations, which is then sorted with the locale-aware
name comparator (`Array.prototype.sort`, a stable sort). -/
def runProviderChecks (check : ProviderConfig → CheckResult) (configs : List ProviderConfig) :
    List CheckResult :=
  if configs.length = 0 then []
  else (configs.map check).mergeSort nameLe

/-! ### Statistics aggregator (`computeStatistics` in
`app/api/v1/status/route.ts`) -/

/-- Translation of the `ProviderStatistics` interface. `successRate` is
a JS float holding a percentage rounded to two decimals, modelled in
`ℚ`. -/
structure ProviderStatistics where
  totalChecks : Nat
  operationalCount : Nat
  degradedCount : Nat
  failedCount : Nat
  validationFailedCount : Nat
  successRate : ℚ
  avgLatencyMs : Option Int
  minLatencyMs : Option Int
  maxLatencyMs : Option Int
deriving DecidableEq, Repr

/-- Mutable state of the `for (const item of items)` loop: the four
status counters and the collected non-null latencies, in order. -/
structure StatsAcc where
  operationalCount : Nat
  degradedCount : Nat
  failedCount : Nat
  validationFailedCount : Nat
  latencies : List Int
deriving DecidableEq, Repr

/-- One iteration of the statistics loop: the `switch` increments the
counter of the four named statuses (an `error` status increments
nothing), and a non-null latency is pushed. -/
def statsStep (acc : StatsAcc) (item : CheckResult) : StatsAcc :=
  let acc1 :=
    match item.status with
    | HealthStatus.operational => { acc with operationalCount := acc.operationalCount + 1 }
    | HealthStatus.degraded => { acc with degradedCount := acc.degradedCount + 1 }
    | HealthStatus.failed => { acc with failedCount := acc.failedCount + 1 }
    | HealthStatus.validation_failed => { acc with validationFailedCount := acc.validationFailedCount + 1 }
    | HealthStatus.error => acc
  match item.latencyMs with
  | some l => { acc1 with latencies := acc1.latencies ++ [l] }
  | none => acc1

/-- Model of the `Math.round` builtin on exact rationals: round half
toward positive infinity. -/
def jsRound (q : ℚ) : Int :=
  Rat.floor (q + 1 / 2)

/-- Translation of `computeStatistics`: empty input short-circuits to
the all-zero record; otherwise one pass accumulates counters and
latencies, the success rate is the percentage of operational plus
degraded results rounded to two decimals, and the latency aggregates
are computed only over the non-null latencies (`Math.min`/`Math.max`
spreads and the rounded mean). -/
def computeStatistics (items : List CheckResult) : ProviderStatistics :=
  if items.length = 0 then
    { totalChecks := 0, operationalCount := 0, degradedCount := 0, failedCount := 0,
      validationFailedCount := 0, successRate := 0,
      avgLatencyMs := none, minLatencyMs := none, maxLatencyMs := none }
  else
    let acc := items.foldl statsStep ⟨0, 0, 0, 0, []⟩
    let successCount := acc.operationalCount + acc.degradedCount
    let successRate : ℚ :=
      if 0 < items.length then ((successCount : ℚ) / (items.length : ℚ)) * 100 else 0
    let latencies := acc.latencies
    let avgLatencyMs : Option Int :=
      if 0 < latencies.length then
        some (jsRound ((latencies.sum : ℚ) / (latencies.length : ℚ)))
      else none
    { totalChecks := items.length,
      operationalCount := acc.operationalCount,
      degradedCount := acc.degradedCount,
      failedCount := acc.failedCount,
      validationFailedCount := acc.validationFailedCount,
      successRate := (jsRound (successRate * 100) : ℚ) / 100,
      avgLatencyMs := avgLatencyMs,
      minLatencyMs := latencies.min?,
      maxLatencyMs := latencies.max? }

/-- Fixed-identity check result used in concrete statistics examples. -/
def mkStatusItem (status : HealthStatus) (latencyMs : Option Int) : CheckResult :=
  { id := "p", name := "P", type := "openai", endpoint := "https://x", model := "m",
    status := status, latencyMs := latencyMs, pingLatencyMs := none,
    checkedAt := "t", message := "" }

/-- Concrete statistics slice: 3 operational, 1 degraded, 1 failed. -/
def c3Example : List CheckResult :=
  [mkStatusItem HealthStatus.operational (some 100),
   mkStatusItem HealthStatus.operational none,
   mkStatusItem HealthStatus.operational (some 200),
   mkStatusItem HealthStatus.degraded (some 300),
   mkStatusItem HealthStatus.failed none]

/-! ### Helper lemmas -/

theorem hasSub_iff (needle : List Char) :
    ∀ hay : List Char, hasSub hay needle = true ↔ ∃ pre post, hay = pre ++ needle ++ post := by
  intro hay
  induction hay with
  | nil =>
    simp only [hasSub, List.isEmpty_iff]
    constructor
    · intro h
      exact ⟨[], [], by simp [h]⟩
    · rintro ⟨pre, post, h⟩
      rcases needle with _ | ⟨c, t⟩
      · rfl
      · exact absurd h.symm (by simp)
  | cons c t ih =>
    simp only [hasSub, Bool.or_eq_true, ih]
    constructor
    · rintro (h | ⟨pre, post, h⟩)
      · rw [List.isPrefixOf_iff_prefix] at h
        rcases h with ⟨post, h⟩
        exact ⟨[], post, by simp [← h]⟩
      · exact ⟨c :: pre, post, by simp [h]⟩
    · rintro ⟨pre, post, h⟩
      rcases pre with _ | ⟨p, pre⟩
      · left
        rw [List.isPrefixOf_iff_prefix]
        exact ⟨post, by simpa using h.symm⟩
      · right
        refine ⟨pre, post, ?_⟩
        have h2 : c = p ∧ t = pre ++ (needle ++ post) := by simpa using h
        simpa using h2.2

theorem jsRound_eq_floor (q : ℚ) : jsRound q = Int.floor (q + 1 / 2) := by
  rw [jsRound, Rat.floor_def', Rat.floor_def]

/-! ### Helper lemmas about the number scan -/

theorem scanNumbersAux_mem_ne_nil :
    ∀ (fuel : Nat) (cs : List Char) (t : String), t ∈ scanNumbersAux fuel cs → t.data ≠ [] := by
  intro fuel
  induction fuel with
  | zero => intro cs t h; simp [scanNumbersAux] at h
  | succ fuel ih =>
    intro cs t h
    cases cs with
    | nil => simp [scanNumbersAux] at h
    | cons c rest =>
      by_cases hc : c = '-'
      · subst hc
        cases rest with
        | nil => simp [scanNumbersAux] at h
        | cons d rest2 =>
          by_cases hd : d.isDigit
          · simp only [scanNumbersAux, if_pos rfl, if_pos hd] at h
            rcases List.mem_cons.mp h with h1 | h1
            · subst h1; simp
            · exact ih _ _ h1
          · simp only [scanNumbersAux, if_pos rfl, if_neg hd] at h
            exact ih _ _ h
      · by_cases hdig : c.isDigit
        · simp only [scanNumbersAux, if_neg hc, if_pos hdig] at h
          rcases List.mem_cons.mp h with h1 | h1
          · subst h1
            simp [List.takeWhile_cons_of_pos hdig]
          · exact ih _ _ h1
        · simp only [scanNumbersAux, if_neg hc, if_neg hdig] at h
          exact ih _ _ h

theorem extractNumbers_mem_ne_empty (r : String) (t : String) (h : t ∈ extractNumbers r) :
    t ≠ "" := by
  intro he
  subst he
  exact scanNumbersAux_mem_ne_nil _ _ _ h rfl

/-- C9: `shouldRetryRequestAborted` returns false for an absent or empty
message, and for every message returns true iff the message contains,
case-insensitively, the phrase "request was aborted" as a substring (the
regex's optional trailing period adds nothing to a containment test);
bad-credential, 500 and timeout messages are rejected. -/
theorem shouldRetryRequestAborted_spec :
    shouldRetryRequestAborted none = false ∧
    shouldRetryRequestAborted (some ("")) = false ∧
    (∀ s : String, shouldRetryRequestAborted (some s) = true ↔
      ∃ pre post, lowerChars s = pre ++ ("request was aborted".data) ++ post) ∧
    shouldRetryRequestAborted (some ("Invalid API key provided")) = false ∧
    shouldRetryRequestAborted (some ("HTTP 500 Internal Server Error")) = false ∧
    shouldRetryRequestAborted (some ("Request timed out")) = false ∧
    shouldRetryRequestAborted (some ("The Request Was Aborted.")) = true := by
  refine ⟨rfl, rfl, ?_, by decide, by decide, by decide, by decide⟩
  intro s
  by_cases hs : s = ""
  · subst hs
    simp only [shouldRetryRequestAborted, if_pos rfl]
    constructor
    · intro h; exact absurd h (by decide)
    · rintro ⟨pre, post, h⟩
      have := congrArg List.length h
      simp [lowerChars] at this
      omega
  · simp only [shouldRetryRequestAborted, if_neg hs, requestAbortedTest]
    exact hasSub_iff _ _

/-- C5: `validateResponse` returns an invalid result with absent
`extractedNumbers` when either argument is empty; otherwise validity is
exactly membership of the expected answer among the scanned number
tokens, witnessed on the negative-number and wrong-answer examples. -/
theorem validateResponse_spec :
    (∀ e : String, validateResponse ("") e = { valid := false, extractedNumbers := none }) ∧
    (∀ r : String, validateResponse r ("") = { valid := false, extractedNumbers := none }) ∧
    (∀ r e : String, (validateResponse r e).valid = true ↔ e ∈ extractNumbers r) ∧
    validateResponse ("-3 and 8") ("-3") = { valid := true, extractedNumbers := some ["-3", "8"] } ∧
    validateResponse ("The answer is 9.") ("8") = { valid := false, extractedNumbers := some ["9"] } := by
  refine ⟨?_, ?_, ?_, by decide, by decide⟩
  · intro e; simp [validateResponse]
  · intro r; simp [validateResponse]
  · intro r e
    by_cases hr : r = ""
    · subst hr
      simp [validateResponse, extractNumbers, scanNumbersAux]
    · by_cases he : e = ""
      · subst he
        have hv : validateResponse r ("") = { valid := false, extractedNumbers := none } := by
          simp [validateResponse]
        rw [hv]
        constructor
        · intro h; exact absurd h (by simp)
        · intro h
          exact absurd rfl (extractNumbers_mem_ne_empty r _ h)
      · have hcond : ¬(r = "" ∨ e = "") := by simp [hr, he]
        simp only [validateResponse]
        rw [if_neg hcond]
        cases hn : extractNumbers r with
        | nil => simp [hn]
        | cons x xs => simp [hn]

/-- C10: `validateResponse` never returns an empty `extractedNumbers`
array, and a valid result always carries the expected answer among the
extracted tokens. -/
theorem validateResponse_extractedNumbers_invariant :
    ∀ r e : String,
      (validateResponse r e).extractedNumbers ≠ some [] ∧
      ((validateResponse r e).valid = true →
        (validateResponse r e).extractedNumbers ≠ none ∧
        (((validateResponse r e).extractedNumbers.getD []).contains e) = true) := by
  intro r e
  by_cases hempty : r = "" ∨ e = ""
  · have hv : validateResponse r e = { valid := false, extractedNumbers := none } := by
      simp only [validateResponse]
      rw [if_pos hempty]
    rw [hv]
    exact ⟨by simp, fun h => absurd h (by simp)⟩
  · cases hn : extractNumbers r with
    | nil =>
      have hv : validateResponse r e = { valid := false, extractedNumbers := none } := by
        simp only [validateResponse]
        rw [if_neg hempty, hn]
      rw [hv]
      exact ⟨by simp, fun h => absurd h (by simp)⟩
    | cons x xs =>
      have hval : validateResponse r e =
          { valid := (x :: xs).contains e, extractedNumbers := some (x :: xs) } := by
        simp only [validateResponse]
        rw [if_neg hempty, hn]
      constructor
      · rw [hval]; simp
      · intro h
        rw [hval] at h ⊢
        exact ⟨by simp, h⟩

/-- C10 witness: on a concrete valid response the extracted tokens are
present and contain the expected answer. -/
theorem validateResponse_extractedNumbers_invariant_witness :
    (validateResponse ("-3 and 8") ("-3")).extractedNumbers ≠ none ∧
    (((validateResponse ("-3 and 8") ("-3")).extractedNumbers.getD []).contains ("-3")) = true :=
  (validateResponse_extractedNumbers_invariant ("-3 and 8") ("-3")).2 (by decide)

/-- C6: every generated challenge has operands in `[1, 50]`; an addition
challenge asks `a + b` and expects their sum; a subtraction challenge
orders the operands so the minuend is at least the subtrahend and
expects the non-negative value `|a - b|`. -/
theorem generateChallenge_spec :
    ∀ d1 d2 : Fin 50,
      1 ≤ d1.val + 1 ∧ d1.val + 1 ≤ 50 ∧ 1 ≤ d2.val + 1 ∧ d2.val + 1 ≤ 50 ∧
      (generateChallenge d1 d2 true).prompt =
        buildPromptWithExamples (toString (d1.val + 1) ++ " + " ++ toString (d2.val + 1) ++ " = ?") ∧
      (generateChallenge d1 d2 true).expectedAnswer = toString ((d1.val + 1) + (d2.val + 1)) ∧
      (generateChallenge d1 d2 false).prompt =
        buildPromptWithExamples
          (toString (max (d1.val + 1) (d2.val + 1)) ++ " - " ++ toString (min (d1.val + 1) (d2.val + 1)) ++ " = ?") ∧
      min (d1.val + 1) (d2.val + 1) ≤ max (d1.val + 1) (d2.val + 1) ∧
      (generateChallenge d1 d2 false).expectedAnswer =
        toString ((((d1.val + 1 : Int)) - ((d2.val + 1 : Int))).natAbs) := by
  intro d1 d2
  refine ⟨Nat.le_add_left 1 _, by omega, Nat.le_add_left 1 _, by omega, rfl, rfl, rfl,
    min_le_max, ?_⟩
  have : max (d1.val + 1) (d2.val + 1) - min (d1.val + 1) (d2.val + 1) =
      (((d1.val + 1 : Int)) - ((d2.val + 1 : Int))).natAbs := by
    omega
  simp only [generateChallenge, if_neg (Bool.false_ne_true)]
  rw [← this]

/-- C1: when every attempt throws an error whose message matches the
request-aborted pattern, `checkWithRetry` consults the provider check on
attempts 0, 1 and 2 (exactly 3 invocations), never throws, and resolves
with the synthesized terminal result: status `error`, null latencies,
and the message derived from the final attempt's error. -/
theorem checkWithRetry_exhausts_retries_on_aborted_throws
    (config : ProviderConfig) (now : String) (f : Nat → AttemptOutcome)
    (h : ∀ n, ∃ e, f n = AttemptOutcome.thrown e ∧
        shouldRetryRequestAborted (some (getErrorMessage e)) = true) :
    ∃ e, f 2 = AttemptOutcome.thrown e ∧
      attemptsUsed config now f = some 3 ∧
      checkWithRetry config now f = Except.ok (mkErrorResult config now (getErrorMessage e)) ∧
      (mkErrorResult config now (getErrorMessage e)).status = HealthStatus.error ∧
      (mkErrorResult config now (getErrorMessage e)).latencyMs = none ∧
      (mkErrorResult config now (getErrorMessage e)).pingLatencyMs = none := by
  obtain ⟨e0, h0, r0⟩ := h 0
  obtain ⟨e1, h1, r1⟩ := h 1
  obtain ⟨e2, h2, r2⟩ := h 2
  have l0 : retryLoop config now f 0 4 = retryLoop config now f 1 3 := by
    simp [retryLoop, MAX_REQUEST_ABORT_RETRIES, h0, r0]
  have l1 : retryLoop config now f 1 3 = retryLoop config now f 2 2 := by
    simp [retryLoop, MAX_REQUEST_ABORT_RETRIES, h1, r1]
  have l2 : retryLoop config now f 2 2 = some (2, mkErrorResult config now (getErrorMessage e2)) := by
    simp [retryLoop, MAX_REQUEST_ABORT_RETRIES, h2]
  refine ⟨e2, h2, ?_, ?_, rfl, rfl, rfl⟩
  · unfold attemptsUsed
    rw [show MAX_REQUEST_ABORT_RETRIES + 2 = 4 from rfl, l0, l1, l2]
    rfl
  · unfold checkWithRetry
    rw [show MAX_REQUEST_ABORT_RETRIES + 2 = 4 from rfl, l0, l1, l2]

/-- C1 witness: a stub that always throws "Request was aborted" is
retried to exactly 3 attempts and yields the terminal error result. -/
theorem checkWithRetry_exhausts_retries_on_aborted_throws_witness :
    attemptsUsed
        { id := "p1", name := "P1", type := "openai", endpoint := "https://x", model := "m" }
        ("2025-01-01T00:00:00.000Z")
        (fun _ => AttemptOutcome.thrown (JsError.str ("Request was aborted"))) = some 3 ∧
    checkWithRetry
        { id := "p1", name := "P1", type := "openai", endpoint := "https://x", model := "m" }
        ("2025-01-01T00:00:00.000Z")
        (fun _ => AttemptOutcome.thrown (JsError.str ("Request was aborted"))) =
      Except.ok (mkErrorResult
        { id := "p1", name := "P1", type := "openai", endpoint := "https://x", model := "m" }
        ("2025-01-01T00:00:00.000Z") ("Request was aborted")) := by
  obtain ⟨e, he, ha, hc, _, _, _⟩ :=
    checkWithRetry_exhausts_retries_on_aborted_throws
      { id := "p1", name := "P1", type := "openai", endpoint := "https://x", model := "m" }
      ("2025-01-01T00:00:00.000Z")
      (fun _ => AttemptOutcome.thrown (JsError.str ("Request was aborted")))
      (fun _ => ⟨JsError.str ("Request was aborted"), rfl, by decide⟩)
  have hee : AttemptOutcome.thrown (JsError.str ("Request was aborted")) = AttemptOutcome.thrown e := he
  injection hee with hee2
  rw [← hee2] at hc
  exact ⟨ha, hc⟩

/-- C8: the defensive post-loop throw of `checkWithRetry` is
unreachable: whatever the provider check returns or throws on each
attempt, some loop iteration returns, because on the final attempt both
the result branch and the throw branch return instead of continuing. -/
theorem checkWithRetry_never_reaches_postloop_throw :
    ∀ (config : ProviderConfig) (now : String) (f : Nat → AttemptOutcome),
      (checkWithRetry config now f).isOk = true := by
  intro config now f
  have l2 : ∀ fuel, (retryLoop config now f 2 (Nat.succ fuel)).isSome = true := by
    intro fuel
    cases hf : f 2 with
    | ok result => simp [retryLoop, MAX_REQUEST_ABORT_RETRIES, hf]
    | thrown e => simp [retryLoop, MAX_REQUEST_ABORT_RETRIES, hf]
  have l1 : ∀ fuel, (retryLoop config now f 1 (Nat.succ (Nat.succ fuel))).isSome = true := by
    intro fuel
    cases hf : f 1 with
    | ok result =>
      by_cases hc : result.status = HealthStatus.failed ∧
          shouldRetryRequestAborted (some result.message) = true ∧ 1 < 2
      · have heq : retryLoop config now f 1 (Nat.succ (Nat.succ fuel)) =
            retryLoop config now f 2 (Nat.succ fuel) := by
          simp [retryLoop, MAX_REQUEST_ABORT_RETRIES, hf, hc]
        rw [heq]
        exact l2 fuel
      · have heq : retryLoop config now f 1 (Nat.succ (Nat.succ fuel)) = some (1, result) := by
          simp only [retryLoop, MAX_REQUEST_ABORT_RETRIES, hf]
          rw [if_neg hc]
          simp
        rw [heq]
        rfl
    | thrown e =>
      by_cases hc : shouldRetryRequestAborted (some (getErrorMessage e)) = true ∧
          1 < 2
      · have heq : retryLoop config now f 1 (Nat.succ (Nat.succ fuel)) =
            retryLoop config now f 2 (Nat.succ fuel) := by
          simp [retryLoop, MAX_REQUEST_ABORT_RETRIES, hf, hc]
        rw [heq]
        exact l2 fuel
      · have heq : retryLoop config now f 1 (Nat.succ (Nat.succ fuel)) =
            some (1, mkErrorResult config now (getErrorMessage e)) := by
          simp only [retryLoop, MAX_REQUEST_ABORT_RETRIES, hf]
          rw [if_neg hc]
          simp
        rw [heq]
        rfl
  have l0 : (retryLoop config now f 0 4).isSome = true := by
    cases hf : f 0 with
    | ok result =>
      by_cases hc : result.status = HealthStatus.failed ∧
          shouldRetryRequestAborted (some result.message) = true ∧ 0 < 2
      · have heq : retryLoop config now f 0 4 = retryLoop config now f 1 3 := by
          simp [retryLoop, MAX_REQUEST_ABORT_RETRIES, hf, hc]
        rw [heq]
        exact l1 1
      · have heq : retryLoop config now f 0 4 = some (0, result) := by
          simp only [retryLoop, MAX_REQUEST_ABORT_RETRIES, hf]
          rw [if_neg hc]
          simp
        rw [heq]
        rfl
    | thrown e =>
      by_cases hc : shouldRetryRequestAborted (some (getErrorMessage e)) = true ∧
          0 < 2
      · have heq : retryLoop config now f 0 4 = retryLoop config now f 1 3 := by
          simp [retryLoop, MAX_REQUEST_ABORT_RETRIES, hf, hc]
        rw [heq]
        exact l1 1
      · have heq : retryLoop config now f 0 4 =
            some (0, mkErrorResult config now (getErrorMessage e)) := by
          simp only [retryLoop, MAX_REQUEST_ABORT_RETRIES, hf]
          rw [if_neg hc]
          simp
        rw [heq]
        rfl
  unfold checkWithRetry
  rw [show MAX_REQUEST_ABORT_RETRIES + 2 = 4 from rfl]
  cases hr : retryLoop config now f 0 4 with
  | none => rw [hr] at l0; exact absurd l0 (by simp)
  | some p => cases p with | mk a b => rfl

/-- C2 counterexample: an error that stores a 19-character credential
under the sensitive key `api_key` and also mentions it in its own
`message` reaches `CheckResult.message` with the full credential intact
(no sanitization is applied on this path; `sanitizeValue` would have
kept only its first and last 4 characters). -/
theorem checkWithRetry_message_unsanitized_counterexample :
    sensitiveKeyTest ("api_key") = true ∧
    ("sk-0123456789abcdef" : String).length = 19 ∧
    checkWithRetry
        { id := "p1", name := "P1", type := "openai", endpoint := "https://x", model := "m" }
        ("2025-01-01T00:00:00.000Z")
        (fun _ => AttemptOutcome.thrown (JsError.errObj
          ("boom api_key=sk-0123456789abcdef") none none
          [("api_key", "sk-0123456789abcdef")])) =
      Except.ok (mkErrorResult
        { id := "p1", name := "P1", type := "openai", endpoint := "https://x", model := "m" }
        ("2025-01-01T00:00:00.000Z") ("boom api_key=sk-0123456789abcdef")) ∧
    hasSub ("boom api_key=sk-0123456789abcdef".data) ("sk-0123456789abcdef".data) = true ∧
    sanitizeValue ("sk-0123456789abcdef") = "sk-0***cdef" := by
  refine ⟨by decide, by decide, ?_, by decide, by decide⟩
  rfl

/-- C2 amended: `getErrorMessage` — and hence the message of the
terminal error result of `checkWithRetry` — depends only on the error's
`message`, `statusCode` and `responseBody` fields; values stored under
any other properties (in particular credential-shaped keys) are never
read, but no redaction is applied to the fields that are read. -/
theorem getErrorMessage_depends_only_on_observable_fields :
    ∀ (message : String) (statusCode : Option Int) (responseBody : Option String)
      (extra1 extra2 : List (String × String)) (config : ProviderConfig) (now : String),
      getErrorMessage (JsError.errObj message statusCode responseBody extra1) =
        getErrorMessage (JsError.errObj message statusCode responseBody extra2) ∧
      checkWithRetry config now
          (fun _ => AttemptOutcome.thrown (JsError.errObj message statusCode responseBody extra1)) =
        checkWithRetry config now
          (fun _ => AttemptOutcome.thrown (JsError.errObj message statusCode responseBody extra2)) := by
  intro message statusCode responseBody extra1 extra2 config now
  exact ⟨rfl, rfl⟩

theorem foldl_statsStep_eq (items : List CheckResult) :
    ∀ acc : StatsAcc,
      items.foldl statsStep acc =
        { operationalCount :=
            acc.operationalCount + items.countP (fun i => decide (i.status = HealthStatus.operational)),
          degradedCount :=
            acc.degradedCount + items.countP (fun i => decide (i.status = HealthStatus.degraded)),
          failedCount :=
            acc.failedCount + items.countP (fun i => decide (i.status = HealthStatus.failed)),
          validationFailedCount :=
            acc.validationFailedCount + items.countP (fun i => decide (i.status = HealthStatus.validation_failed)),
          latencies := acc.latencies ++ items.filterMap (fun i => i.latencyMs) } := by
  induction items with
  | nil => intro acc; simp
  | cons item rest ih =>
    intro acc
    rw [List.foldl_cons, ih]
    cases hs : item.status <;> cases hl : item.latencyMs <;>
      simp [statsStep, hs, hl, List.countP_cons, List.append_assoc] <;>
      omega

theorem countP_status_partition (items : List CheckResult) :
    items.countP (fun i => decide (i.status = HealthStatus.operational)) +
      items.countP (fun i => decide (i.status = HealthStatus.degraded)) +
      items.countP (fun i => decide (i.status = HealthStatus.failed)) +
      items.countP (fun i => decide (i.status = HealthStatus.validation_failed)) +
      items.countP (fun i => decide (i.status = HealthStatus.error)) = items.length := by
  induction items with
  | nil => simp
  | cons item rest ih =>
    cases hs : item.status <;> simp [List.countP_cons, hs] <;> omega

theorem mul_length_le_sum (l : List Int) (m : Int) (h : ∀ x ∈ l, m ≤ x) :
    m * l.length ≤ l.sum := by
  induction l with
  | nil => simp
  | cons x xs ih =>
    have hx : m ≤ x := h x (by simp)
    have hxs := ih (fun y hy => h y (by simp [hy]))
    simp only [List.length_cons, List.sum_cons]
    push_cast
    linarith

theorem sum_le_mul_length (l : List Int) (m : Int) (h : ∀ x ∈ l, x ≤ m) :
    l.sum ≤ m * l.length := by
  induction l with
  | nil => simp
  | cons x xs ih =>
    have hx : x ≤ m := h x (by simp)
    have hxs := ih (fun y hy => h y (by simp [hy]))
    simp only [List.length_cons, List.sum_cons]
    push_cast
    linarith

/-- C3: on a non-empty slice, `totalChecks` is the slice length, each of
the four named counters counts exactly its own status (so an `error`
item is in the denominator but in no counter and never in the
numerator), their sum plus the `error` count exhausts the slice, and
`successRate` is `100 * (operational + degraded) / totalChecks` rounded
to two decimals; 3 operational + 1 degraded + 1 failed gives 80. -/
theorem computeStatistics_successRate_spec :
    (∀ items : List CheckResult, items ≠ [] →
      (computeStatistics items).totalChecks = items.length ∧
      (computeStatistics items).operationalCount =
        items.countP (fun i => decide (i.status = HealthStatus.operational)) ∧
      (computeStatistics items).degradedCount =
        items.countP (fun i => decide (i.status = HealthStatus.degraded)) ∧
      (computeStatistics items).failedCount =
        items.countP (fun i => decide (i.status = HealthStatus.failed)) ∧
      (computeStatistics items).validationFailedCount =
        items.countP (fun i => decide (i.status = HealthStatus.validation_failed)) ∧
      (computeStatistics items).operationalCount + (computeStatistics items).degradedCount +
          (computeStatistics items).failedCount + (computeStatistics items).validationFailedCount +
          items.countP (fun i => decide (i.status = HealthStatus.error)) =
        (computeStatistics items).totalChecks ∧
      (computeStatistics items).successRate =
        ((jsRound ((100 * ((((computeStatistics items).operationalCount +
            (computeStatistics items).degradedCount : Nat) : ℚ) /
            (((computeStatistics items).totalChecks : Nat) : ℚ))) * 100)) : ℚ) / 100) ∧
    (computeStatistics c3Example).successRate = 80 := by
  have hmain : ∀ items : List CheckResult, items ≠ [] →
      (computeStatistics items).totalChecks = items.length ∧
      (computeStatistics items).operationalCount =
        items.countP (fun i => decide (i.status = HealthStatus.operational)) ∧
      (computeStatistics items).degradedCount =
        items.countP (fun i => decide (i.status = HealthStatus.degraded)) ∧
      (computeStatistics items).failedCount =
        items.countP (fun i => decide (i.status = HealthStatus.failed)) ∧
      (computeStatistics items).validationFailedCount =
        items.countP (fun i => decide (i.status = HealthStatus.validation_failed)) ∧
      (computeStatistics items).operationalCount + (computeStatistics items).degradedCount +
          (computeStatistics items).failedCount + (computeStatistics items).validationFailedCount +
          items.countP (fun i => decide (i.status = HealthStatus.error)) =
        (computeStatistics items).totalChecks ∧
      (computeStatistics items).successRate =
        ((jsRound ((100 * ((((computeStatistics items).operationalCount +
            (computeStatistics items).degradedCount : Nat) : ℚ) /
            (((computeStatistics items).totalChecks : Nat) : ℚ))) * 100)) : ℚ) / 100 := by
    intro items hne
    have hlen0 : ¬(items.length = 0) := by
      simpa [List.length_eq_zero] using hne
    have hfold := foldl_statsStep_eq items ⟨0, 0, 0, 0, []⟩
    have htot : (computeStatistics items).totalChecks = items.length := by
      simp only [computeStatistics]
      rw [if_neg hlen0]
    have hop : (computeStatistics items).operationalCount =
        items.countP (fun i => decide (i.status = HealthStatus.operational)) := by
      simp only [computeStatistics]
      rw [if_neg hlen0, hfold]
      simp
    have hdeg : (computeStatistics items).degradedCount =
        items.countP (fun i => decide (i.status = HealthStatus.degraded)) := by
      simp only [computeStatistics]
      rw [if_neg hlen0, hfold]
      simp
    have hfail : (computeStatistics items).failedCount =
        items.countP (fun i => decide (i.status = HealthStatus.failed)) := by
      simp only [computeStatistics]
      rw [if_neg hlen0, hfold]
      simp
    have hvf : (computeStatistics items).validationFailedCount =
        items.countP (fun i => decide (i.status = HealthStatus.validation_failed)) := by
      simp only [computeStatistics]
      rw [if_neg hlen0, hfold]
      simp
    refine ⟨htot, hop, hdeg, hfail, hvf, ?_, ?_⟩
    · rw [htot, hop, hdeg, hfail, hvf]
      exact countP_status_partition items
    · rw [hop, hdeg, htot]
      simp only [computeStatistics]
      rw [if_neg hlen0, hfold]
      rw [if_pos (Nat.pos_of_ne_zero hlen0)]
      norm_cast
      push_cast
      ring_nf
  refine ⟨hmain, ?_⟩
  obtain ⟨htot, hop, hdeg, _, _, _, hrate⟩ := hmain c3Example (by decide)
  rw [hrate, hop, hdeg, htot]
  rw [show c3Example.countP (fun i => decide (i.status = HealthStatus.operational)) = 3 from by decide]
  rw [show c3Example.countP (fun i => decide (i.status = HealthStatus.degraded)) = 1 from by decide]
  rw [show c3Example.length = 5 from by decide]
  rw [jsRound_eq_floor]
  norm_num

/-- C3 witness: the spec instance holds on the concrete 5-item slice. -/
theorem computeStatistics_successRate_spec_witness :
    (computeStatistics c3Example).totalChecks = c3Example.length ∧
    (computeStatistics c3Example).successRate = 80 :=
  ⟨(computeStatistics_successRate_spec.1 c3Example (by decide)).1,
    computeStatistics_successRate_spec.2⟩

/-- C7: when at least one item has a non-null latency, the three latency
aggregates are all present and satisfy `min ≤ avg ≤ max` (the average is
the rounded mean of the non-null latencies); when no item has a latency,
all three are null even if the slice itself is non-empty. -/
theorem computeStatistics_latency_bounds :
    ∀ items : List CheckResult,
      ((∃ r ∈ items, r.latencyMs ≠ none) →
        ∃ mn av mx : Int,
          (computeStatistics items).minLatencyMs = some mn ∧
          (computeStatistics items).avgLatencyMs = some av ∧
          (computeStatistics items).maxLatencyMs = some mx ∧
          mn ≤ av ∧ av ≤ mx) ∧
      ((∀ r ∈ items, r.latencyMs = none) →
        (computeStatistics items).minLatencyMs = none ∧
        (computeStatistics items).avgLatencyMs = none ∧
        (computeStatistics items).maxLatencyMs = none) := by
  intro items
  constructor
  · rintro ⟨r, hr, hlat⟩
    have hne : items ≠ [] := List.ne_nil_of_mem hr
    have hlen0 : ¬(items.length = 0) := by
      simpa [List.length_eq_zero] using hne
    have hfold := foldl_statsStep_eq items ⟨0, 0, 0, 0, []⟩
    obtain ⟨v, hv⟩ := Option.ne_none_iff_exists'.mp hlat
    have hvmem : v ∈ items.filterMap (fun i => i.latencyMs) :=
      List.mem_filterMap.mpr ⟨r, hr, hv⟩
    have hLne : items.filterMap (fun i => i.latencyMs) ≠ [] :=
      List.ne_nil_of_mem hvmem
    cases hL : items.filterMap (fun i => i.latencyMs) with
    | nil => exact absurd hL hLne
    | cons x xs =>
      have hstats : (computeStatistics items).minLatencyMs = (x :: xs).min? ∧
          (computeStatistics items).avgLatencyMs =
            some (jsRound (((x :: xs).sum : ℚ) / ((x :: xs).length : ℚ))) ∧
          (computeStatistics items).maxLatencyMs = (x :: xs).max? := by
        refine ⟨?_, ?_, ?_⟩ <;>
          · simp only [computeStatistics]
            rw [if_neg hlen0, hfold]
            simp [hL]
      haveI : Std.Antisymm (α := Int) (fun a b => a ≤ b) := ⟨fun h1 h2 => le_antisymm h1 h2⟩
      have hminq : (x :: xs).min? = some (xs.foldl min x) := rfl
      have hmaxq : (x :: xs).max? = some (xs.foldl max x) := rfl
      have hminp := (List.min?_eq_some_iff (fun a => le_refl a) (fun a b => min_choice a b)
        (fun a b c => le_min_iff)).mp hminq
      have hmaxp := (List.max?_eq_some_iff (fun a => le_refl a) (fun a b => max_choice a b)
        (fun a b c => max_le_iff)).mp hmaxq
      set mn := xs.foldl min x with hmn
      set mx := xs.foldl max x with hmx
      set L := x :: xs with hLdef
      have hlenpos : (0 : ℚ) < (L.length : ℚ) := by
        have : 0 < L.length := by simp [hLdef]
        exact_mod_cast this
      have hlow : mn * L.length ≤ L.sum := mul_length_le_sum L mn hminp.2
      have hhigh : L.sum ≤ mx * L.length := sum_le_mul_length L mx hmaxp.2
      have hlow' : (mn : ℚ) ≤ (L.sum : ℚ) / (L.length : ℚ) := by
        rw [le_div_iff₀ hlenpos]
        exact_mod_cast hlow
      have hhigh' : (L.sum : ℚ) / (L.length : ℚ) ≤ (mx : ℚ) := by
        rw [div_le_iff₀ hlenpos]
        exact_mod_cast hhigh
      refine ⟨mn, jsRound ((L.sum : ℚ) / (L.length : ℚ)), mx,
        by rw [hstats.1, hminq], hstats.2.1, by rw [hstats.2.2, hmaxq], ?_, ?_⟩
      · rw [jsRound_eq_floor]
        rw [Int.le_floor]
        linarith
      · rw [jsRound_eq_floor]
        rw [← Int.lt_add_one_iff, Int.floor_lt]
        simp only [Int.cast_add, Int.cast_one]
        linarith
  · intro hall
    have hL : items.filterMap (fun i => i.latencyMs) = [] :=
      List.filterMap_eq_nil_iff.mpr hall
    cases hni : items with
    | nil => simp [computeStatistics]
    | cons a as =>
      have hlen0 : ¬(items.length = 0) := by simp [hni]
      have hfold := foldl_statsStep_eq items ⟨0, 0, 0, 0, []⟩
      rw [← hni]
      refine ⟨?_, ?_, ?_⟩ <;>
        · simp only [computeStatistics]
          rw [if_neg hlen0, hfold]
          simp [hL]

/-- C7 witness: a slice with two non-null latencies has all three
aggregates present. -/
theorem computeStatistics_latency_bounds_witness :
    (computeStatistics [mkStatusItem HealthStatus.operational (some 100),
        mkStatusItem HealthStatus.error none,
        mkStatusItem HealthStatus.degraded (some 250)]).minLatencyMs ≠ none ∧
    (computeStatistics [mkStatusItem HealthStatus.operational (some 100),
        mkStatusItem HealthStatus.error none,
        mkStatusItem HealthStatus.degraded (some 250)]).avgLatencyMs ≠ none ∧
    (computeStatistics [mkStatusItem HealthStatus.operational (some 100),
        mkStatusItem HealthStatus.error none,
        mkStatusItem HealthStatus.degraded (some 250)]).maxLatencyMs ≠ none := by
  obtain ⟨mn, av, mx, h1, h2, h3, _, _⟩ :=
    (computeStatistics_latency_bounds
      [mkStatusItem HealthStatus.operational (some 100),
       mkStatusItem HealthStatus.error none,
       mkStatusItem HealthStatus.degraded (some 250)]).1
      ⟨mkStatusItem HealthStatus.operational (some 100), by simp, by simp [mkStatusItem]⟩
  exact ⟨by simp [h1], by simp [h2], by simp [h3]⟩

theorem lexNat_swap : ∀ xs ys : List Nat, lexNat ys xs = (lexNat xs ys).swap := by
  intro xs
  induction xs with
  | nil => intro ys; cases ys <;> rfl
  | cons x t ih =>
    intro ys
    cases ys with
    | nil => rfl
    | cons y s =>
      simp only [lexNat]
      split_ifs <;> first | rfl | omega | exact ih s

theorem lexNat_eq_iff : ∀ xs ys : List Nat, lexNat xs ys = Ordering.eq ↔ xs = ys := by
  intro xs
  induction xs with
  | nil => intro ys; cases ys <;> simp [lexNat]
  | cons x t ih =>
    intro ys
    cases ys with
    | nil => simp [lexNat]
    | cons y s =>
      simp only [lexNat]
      split_ifs with h1 h2
      · exact iff_of_false (by decide) (by intro hh; injection hh with hxy hts; omega)
      · exact iff_of_false (by decide) (by intro hh; injection hh with hxy hts; omega)
      · have hxy : x = y := by omega
        subst hxy
        rw [ih s]
        simp

theorem lexNat_lt_trans : ∀ xs ys zs : List Nat,
    lexNat xs ys = Ordering.lt → lexNat ys zs = Ordering.lt → lexNat xs zs = Ordering.lt := by
  intro xs
  induction xs with
  | nil =>
    intro ys zs h1 h2
    cases ys with
    | nil => simp [lexNat] at h1
    | cons y s =>
      cases zs with
      | nil => simp [lexNat] at h2
      | cons z u => simp [lexNat]
  | cons x t ih =>
    intro ys zs h1 h2
    cases ys with
    | nil => simp [lexNat] at h1
    | cons y s =>
      cases zs with
      | nil => simp [lexNat] at h2
      | cons z u =>
        simp only [lexNat] at h1 h2 ⊢
        by_cases hxy : x < y
        · by_cases hyz : y < z
          · rw [if_pos (by omega)]
          · rw [if_neg hyz] at h2
            by_cases hzy : z < y
            · rw [if_pos hzy] at h2
              exact absurd h2 (by decide)
            · rw [if_neg hzy] at h2
              rw [if_pos (by omega)]
        · by_cases hyx : y < x
          · rw [if_neg hxy, if_pos hyx] at h1
            exact absurd h1 (by decide)
          · rw [if_neg hxy, if_neg hyx] at h1
            by_cases hyz : y < z
            · rw [if_pos (by omega)]
            · rw [if_neg hyz] at h2
              by_cases hzy : z < y
              · rw [if_pos hzy] at h2
                exact absurd h2 (by decide)
              · rw [if_neg hzy] at h2
                rw [if_neg (by omega), if_neg (by omega)]
                exact ih s u h1 h2

theorem lexNat_le_trans : ∀ xs ys zs : List Nat,
    lexNat xs ys ≠ Ordering.gt → lexNat ys zs ≠ Ordering.gt → lexNat xs zs ≠ Ordering.gt := by
  intro xs ys zs h1 h2
  cases hab : lexNat xs ys with
  | gt => exact absurd hab h1
  | eq =>
    rw [lexNat_eq_iff] at hab
    subst hab
    exact h2
  | lt =>
    cases hbc : lexNat ys zs with
    | gt => exact absurd hbc h2
    | eq =>
      rw [lexNat_eq_iff] at hbc
      subst hbc
      rw [hab]
      simp
    | lt =>
      rw [lexNat_lt_trans xs ys zs hab hbc]
      simp

theorem collate_then_trans (a b c : String) :
    (lexNat (primaryKey a) (primaryKey b)).then (lexNat (secondaryKey a) (secondaryKey b)) ≠ Ordering.gt →
    (lexNat (primaryKey b) (primaryKey c)).then (lexNat (secondaryKey b) (secondaryKey c)) ≠ Ordering.gt →
    (lexNat (primaryKey a) (primaryKey c)).then (lexNat (secondaryKey a) (secondaryKey c)) ≠ Ordering.gt := by
  intro h1 h2
  cases hp1 : lexNat (primaryKey a) (primaryKey b) with
  | gt => rw [hp1] at h1; simp [Ordering.then] at h1
  | lt =>
    cases hp2 : lexNat (primaryKey b) (primaryKey c) with
    | gt => rw [hp2] at h2; simp [Ordering.then] at h2
    | lt =>
      rw [lexNat_lt_trans _ _ _ hp1 hp2]
      simp [Ordering.then]
    | eq =>
      have heq := (lexNat_eq_iff _ _).mp hp2
      rw [← heq, hp1]
      simp [Ordering.then]
  | eq =>
    have heq := (lexNat_eq_iff _ _).mp hp1
    rw [hp1] at h1
    simp only [Ordering.then] at h1
    cases hp2 : lexNat (primaryKey b) (primaryKey c) with
    | gt => rw [hp2] at h2; simp [Ordering.then] at h2
    | lt =>
      rw [heq, hp2]
      simp [Ordering.then]
    | eq =>
      rw [hp2] at h2
      simp only [Ordering.then] at h2
      rw [heq, hp2]
      simp only [Ordering.then]
      exact lexNat_le_trans _ _ _ h1 h2

theorem collate_then_swap (a b : String) :
    (lexNat (primaryKey b) (primaryKey a)).then (lexNat (secondaryKey b) (secondaryKey a)) =
      ((lexNat (primaryKey a) (primaryKey b)).then (lexNat (secondaryKey a) (secondaryKey b))).swap := by
  rw [lexNat_swap (primaryKey a), lexNat_swap (secondaryKey a), ← Ordering.swap_then]

theorem localeCompare_le_iff (a b : String) :
    localeCompare a b ≤ 0 ↔
      (lexNat (primaryKey a) (primaryKey b)).then (lexNat (secondaryKey a) (secondaryKey b)) ≠
        Ordering.gt := by
  unfold localeCompare
  cases h : (lexNat (primaryKey a) (primaryKey b)).then (lexNat (secondaryKey a) (secondaryKey b)) <;>
    simp

theorem nameLe_trans (a b c : CheckResult) :
    nameLe a b = true → nameLe b c = true → nameLe a c = true := by
  simp only [nameLe, decide_eq_true_eq, localeCompare_le_iff]
  exact collate_then_trans a.name b.name c.name

theorem nameLe_total (a b : CheckResult) : (nameLe a b || nameLe b a) = true := by
  simp only [nameLe, Bool.or_eq_true, decide_eq_true_eq, localeCompare_le_iff]
  cases h : (lexNat (primaryKey a.name) (primaryKey b.name)).then
      (lexNat (secondaryKey a.name) (secondaryKey b.name)) with
  | lt => left; simp [h]
  | eq => left; simp [h]
  | gt =>
    right
    rw [collate_then_swap, h]
    decide

theorem runProviderChecks_eq_mergeSort (check : ProviderConfig → CheckResult)
    (configs : List ProviderConfig) :
    runProviderChecks check configs = (configs.map check).mergeSort nameLe := by
  by_cases h : configs.length = 0
  · have : configs = [] := List.length_eq_zero.mp h
    subst this
    simp [runProviderChecks]
  · simp [runProviderChecks, h]

unseal List.merge List.mergeSort in
/-- C4: `runProviderChecks` yields exactly one result per configuration
(a permutation of the per-configuration check results, so no partial
batches), sorted ascending by `name` under the locale-aware comparator
regardless of completion order (the result value does not depend on
scheduling), with the empty input yielding the empty array; configs
named Zeta, Alpha, mu come out ordered Alpha, mu, Zeta. -/
theorem runProviderChecks_spec :
    (∀ (check : ProviderConfig → CheckResult) (configs : List ProviderConfig),
      (runProviderChecks check configs).length = configs.length ∧
      (runProviderChecks check configs).Perm (configs.map check) ∧
      List.Pairwise (fun a b => localeCompare a.name b.name ≤ 0) (runProviderChecks check configs) ∧
      (configs = [] → runProviderChecks check configs = [])) ∧
    (runProviderChecks
        (fun cfg => mkErrorResult cfg ("t") (""))
        [{ id := "1", name := "Zeta", type := "openai", endpoint := "e", model := "m" },
         { id := "2", name := "Alpha", type := "openai", endpoint := "e", model := "m" },
         { id := "3", name := "mu", type := "openai", endpoint := "e", model := "m" }]).map
      (fun r => r.name) = ["Alpha", "mu", "Zeta"] := by
  constructor
  · intro check configs
    have hre := runProviderChecks_eq_mergeSort check configs
    refine ⟨?_, ?_, ?_, ?_⟩
    · rw [hre, (List.mergeSort_perm _ _).length_eq, List.length_map]
    · rw [hre]
      exact List.mergeSort_perm _ _
    · rw [hre]
      exact (List.sorted_mergeSort (fun a b c => nameLe_trans a b c) nameLe_total
        (configs.map check)).imp (fun hab => of_decide_eq_true hab)
    · intro h
      subst h
      rfl
  · decide

/-- C4 witness: the empty configuration list resolves to the empty
result list. -/
theorem runProviderChecks_spec_witness :
    runProviderChecks (fun cfg => mkErrorResult cfg ("t") ("")) [] = [] :=
  (runProviderChecks_spec.1 (fun cfg => mkErrorResult cfg ("t") ("")) []).2.2.2 rfl
